import Mathlib

/-
  Verification development for the gologs/log repository: a shallow embedding
  of the leveled-logging pipeline (levels, context, logger, stream framing,
  config options, decorators) together with theorems about its behaviour.

  Conventions of the embedding:
  * Go side effects are made explicit: a `Logger` produces the list of events
    its invocation causes; a stream is explicit state threaded through calls.
  * Go `nil`-able values are `Option`; a Go function that can only signal
    failure by panicking is embedded in `Except String`.
  * Machine integers are `Int`/`Nat` (no overflow is relevant to the code
    modelled here: levels are small constants and lengths are list lengths).
-/

namespace Gologs

/-- Go `levels.Level`: Go declares `type Level int`; embedded as `Int`.
The six constants come from the `iota` block in levels/levels.go. -/
abbrev Level := Int

/-- Go `levels.Debug` (iota 0) -/
def Debug : Level := 0

/-- Go `levels.Info` -/
def Info : Level := 1

/-- Go `levels.Warn` -/
def Warn : Level := 2

/-- Go `levels.Error` -/
def Error : Level := 3

/-- Go `levels.Fatal` -/
def Fatal : Level := 4

/-- Go `levels.Panic` -/
def Panic : Level := 5

/-- Context keys (`interface{}` keys compared with `==`): the private
`levelKey` of package levels, plus user-supplied keys. -/
inductive Key where
  | levelKey : Key
  | user : Nat → Key
deriving DecidableEq

/-- Context values (`interface{}` values): a `levels.Level`, or another
payload. The constructor records the dynamic type, so the `.(Level)` type
assertion of `FromContext` is a `match`. -/
inductive Val where
  | level : Level → Val
  | nat : Nat → Val
deriving DecidableEq

/-- Go `context.Context` restricted to its value chain: `nullContext` (both
`Background()` and `TODO()` return it) and the `stateful` node allocated by
`WithValue`. The chain is read-only: a node holds its parent by reference. -/
inductive Ctx where
  | background : Ctx
  | stateful : Ctx → Key → Val → Ctx
deriving DecidableEq

/-- Go `stateful.Value` / `nullContext.Value` from context/context.go:
`if key == c.key { return c.value }; return c.Context.Value(key)`,
and the null context returns nil (`none`) for every key. -/
def Ctx.Value : Ctx → Key → Option Val
  | .background, _ => none
  | .stateful parent k v, key => if key = k then some v else parent.Value key

/-- Go `context.WithValue(c, key, value)`: allocates a new node, never mutates `c`. -/
def WithValue (c : Ctx) (key : Key) (value : Val) : Ctx := .stateful c key value

/-- Whether a key occurs anywhere in the context chain (used to state that a
context holds no value for a key). -/
def Ctx.hasKey : Ctx → Key → Bool
  | .background, _ => false
  | .stateful parent k _, key => key = k || parent.hasKey key

/-- Go `levels.NewContext`: annotate a context with a Level under the private key. -/
def NewContext (ctx : Ctx) (lvl : Level) : Ctx := WithValue ctx .levelKey (.level lvl)

/-- Go `levels.FromContext`: `x, ok := ctx.Value(levelKey).(Level)`; the type
assertion fails (ok = false) when the slot is absent or holds a non-Level. -/
def FromContext (ctx : Ctx) : Option Level :=
  match ctx.Value .levelKey with
  | some (.level l) => some l
  | _ => none

/-- Arguments (`...interface{}`) of a log call. -/
abbrev Arg := Val

/-- Observable events caused by one logging call: delivery of the event to an
underlying sink, a process-exit invocation, or a panic invocation. -/
inductive Event where
  | logf : Ctx → String → List Arg → Event
  | exit : Int → Event
  | panicked : String → Event
deriving DecidableEq

/-- Go `logger.Logger`: `Logf(Context, string, ...interface{})`; its side effect
is the list of events the call produces. -/
abbrev Logger := Ctx → String → List Arg → List Event

/-- Go `logger.Null()`: discards all log events. -/
def Logger.Null : Logger := fun _ _ _ => []

/-- A logger that delivers each event to a named sink (used for witnesses). -/
def Logger.sink : Logger := fun c m a => [Event.logf c m a]

/-- Go `levels.ThresholdLogger(min, at, logs)`: returns `logs` if `at >= min`,
otherwise the discarding `logger.Null()`. -/
def ThresholdLogger (min atLvl : Level) (logs : Logger) : Logger :=
  if atLvl ≥ min then logs else Logger.Null

/-- Go `levels.MinTransform(min)`: the TransformOp
`func(x, logs) { return x, ThresholdLogger(min, x, logs) }`. -/
def MinTransform (min : Level) : Level → Logger → Level × Logger :=
  fun x logs => (x, ThresholdLogger min x logs)

/-- The `loggers` struct of levels/levels.go: an initial-context getter plus
one Logger per level. -/
structure Loggers where
  ic : Ctx
  debugf : Logger
  infof : Logger
  warnf : Logger
  errorf : Logger
  fatalf : Logger
  panicf : Logger

/-- Go `(*loggers).Debugf(m, a...) { f.debugf.Logf(f.ic(), m, a...) }` -/
def Loggers.Debugf (f : Loggers) (m : String) (a : List Arg) : List Event :=
  f.debugf f.ic m a

/-- Go `(*loggers).Infof` -/
def Loggers.Infof (f : Loggers) (m : String) (a : List Arg) : List Event :=
  f.infof f.ic m a

/-- Go `(*loggers).Warnf` -/
def Loggers.Warnf (f : Loggers) (m : String) (a : List Arg) : List Event :=
  f.warnf f.ic m a

/-- Go `(*loggers).Errorf` -/
def Loggers.Errorf (f : Loggers) (m : String) (a : List Arg) : List Event :=
  f.errorf f.ic m a

/-- Go `(*loggers).Fatalf` -/
def Loggers.Fatalf (f : Loggers) (m : String) (a : List Arg) : List Event :=
  f.fatalf f.ic m a

/-- Go `(*loggers).Panicf` -/
def Loggers.Panicf (f : Loggers) (m : String) (a : List Arg) : List Event :=
  f.panicf f.ic m a

/-- Go `levels.WithLoggers(ctx, index)`: an Indexer is `Level → (Logger, bool)`
(embedded `Level → Option Logger`); a level the Indexer has no Logger for is
bound to `logger.Null()`. -/
def WithLoggers (ctx : Ctx) (index : Level → Option Logger) : Loggers :=
  let t : Level → Logger := fun lvl =>
    match index lvl with
    | some logs => logs
    | none => Logger.Null
  ⟨ctx, t Debug, t Info, t Warn, t Error, t Fatal, t Panic⟩

/-- The old-API `logger.Logger` of config/config.go: `Logf(string, ...)`
without a context argument. -/
abbrev LoggerNC := String → List Arg → List Event

/-- The discarding no-context logger. -/
def LoggerNC.Null : LoggerNC := fun _ _ => []

/-- A no-context logger that delivers each event (used for witnesses). -/
def LoggerNC.sink : LoggerNC := fun m a => [Event.logf Ctx.background m a]

/-- The `loggers` struct of config/config.go. -/
structure LoggersNC where
  debugf : LoggerNC
  infof : LoggerNC
  warnf : LoggerNC
  errorf : LoggerNC
  fatalf : LoggerNC
  panicf : LoggerNC

/-- Go `(*loggers).Debugf` of config/config.go -/
def LoggersNC.Debugf (f : LoggersNC) (m : String) (a : List Arg) : List Event :=
  f.debugf m a

/-- Go `(*loggers).Infof` of config/config.go -/
def LoggersNC.Infof (f : LoggersNC) (m : String) (a : List Arg) : List Event :=
  f.infof m a

/-- Go `(*loggers).Warnf` of config/config.go -/
def LoggersNC.Warnf (f : LoggersNC) (m : String) (a : List Arg) : List Event :=
  f.warnf m a

/-- Go `(*loggers).Errorf` of config/config.go -/
def LoggersNC.Errorf (f : LoggersNC) (m : String) (a : List Arg) : List Event :=
  f.errorf m a

/-- Go `(*loggers).Fatalf` of config/config.go -/
def LoggersNC.Fatalf (f : LoggersNC) (m : String) (a : List Arg) : List Event :=
  f.fatalf m a

/-- Go `(*loggers).Panicf` of config/config.go -/
def LoggersNC.Panicf (f : LoggersNC) (m : String) (a : List Arg) : List Event :=
  f.panicf m a

/-- The `check` closure of `config.WithLevelLoggers`: a nil Logger is
replaced by `logger.Null()`. -/
def checkLogger (x : Option LoggerNC) : LoggerNC :=
  match x with
  | some l => l
  | none => LoggerNC.Null

/-- Go `config.WithLevelLoggers(debugf, ..., panicf)` from config/config.go. -/
def WithLevelLoggers (debugf infof warnf errorf fatalf panicf : Option LoggerNC) :
    LoggersNC :=
  ⟨checkLogger debugf, checkLogger infof, checkLogger warnf,
   checkLogger errorf, checkLogger fatalf, checkLogger panicf⟩

/-- The effect of `os.Exit(code)` as a trace event. -/
def osExit : Int → List Event := fun code => [Event.exit code]

/-- The effect of Go `panic(m)` as a trace event. -/
def goPanic : String → List Event := fun m => [Event.panicked m]

/-- Go `config.safeExit`: a nil exit func falls back to `os.Exit`. A configured
exit func is modelled by the events its invocation produces. -/
def safeExit (fexit : Option (Int → List Event)) : Int → List Event :=
  match fexit with
  | some f => f
  | none => osExit

/-- Go `config.safePanic`: a nil panic func falls back to the builtin `panic`. -/
def safePanic (fpanic : Option (String → List Event)) : String → List Event :=
  match fpanic with
  | some f => f
  | none => goPanic

/-- Go `config.exitLogger(logs, fexit, code)`: `defer safeExit(fexit)(code);
logs.Logf(c, m, a...)` — the deferred exit hook runs after `Logf` returns,
so its events follow the delegate's events in the trace. -/
def exitLogger (logs : Logger) (fexit : Option (Int → List Event)) (code : Int) :
    Logger :=
  fun c m a => logs c m a ++ safeExit fexit code

/-- Go `config.panicLogger(logs, fpanic)`: `defer safePanic(fpanic)(m);
logs.Logf(c, m, a...)`. -/
def panicLogger (logs : Logger) (fpanic : Option (String → List Event)) : Logger :=
  fun c m a => logs c m a ++ safePanic fpanic m

/-- Go `levels.Transform`: a map from Level to logger Decorator. -/
def Transform := Level → Option (Logger → Logger)

/-- Go `Transform.Apply(x, logs)`: apply the decorator registered for `x`, if any. -/
def Transform.Apply (t : Transform) (x : Level) (logs : Logger) : Level × Logger :=
  match t x with
  | some f => (x, f logs)
  | none => (x, logs)

/-- The Transform literal built inside `Config.WithContext`: Fatal is wrapped
by `exitLogger` with the configured exit func and exit code, Panic by
`panicLogger` with the configured panic func. -/
def withContextTransform (fexit : Option (Int → List Event)) (code : Int)
    (fpanic : Option (String → List Event)) : Transform :=
  fun lvl =>
    if lvl = Fatal then some (fun x => exitLogger x fexit code)
    else if lvl = Panic then some (fun x => panicLogger x fpanic)
    else none

/-- Go `context.Decorators.Decorate(ctx)`: the loop
`for d in dd { if d != nil { ctx = d(ctx) } }` — each decorator's output
context feeds the next decorator's input, first to last. -/
def ctxDecorate : List (Option (Ctx → Ctx)) → Ctx → Ctx
  | [], ctx => ctx
  | d :: dd, ctx =>
      match d with
      | some f => ctxDecorate dd (f ctx)
      | none => ctxDecorate dd ctx

/-- Go `io.StreamOp`: `(Context, Stream, string, ...interface{}) → error`. The
stream is explicit state of type `σ`, returned updated alongside the error. -/
def StreamOp (σ : Type) := Ctx → σ → String → List Arg → σ × Option String

/-- Go `io.Decorators.Decorate(op)`: the loop
`for d in dd { if d != nil { op = d(op) } }` — each decorator wraps the
result of the previous fold step, so the last decorator wraps outermost. -/
def streamDecorate {σ : Type} :
    List (Option (StreamOp σ → StreamOp σ)) → StreamOp σ → StreamOp σ
  | [], op => op
  | d :: dd, op =>
      match d with
      | some f => streamDecorate dd (f op)
      | none => streamDecorate dd op

/-- A prefix-writing stream decorator over a byte-list stream (the shape
produced by `io.Prefix`): it writes its tag to the stream, then delegates. -/
def tagWrite (tag : Nat) : StreamOp (List Nat) → StreamOp (List Nat) :=
  fun op => fun c s m a => op c (s ++ [tag]) m a

/-- A byte value (Go `byte`); the operations below keep values below 256. -/
abbrev Byte := Nat

/-- Go `byte(x) | 0x80` from the loop body of `binary.PutUvarint`. -/
def byteOr80 (x : Nat) : Nat := (x % 256) ||| 128

/-- Go `binary.PutUvarint`: while `x >= 0x80` emit `byte(x)|0x80` and shift
`x >>= 7`; finally emit `byte(x)`. Returns the emitted bytes in order. -/
def putUvarint (x : Nat) : List Byte :=
  if h : 128 ≤ x then byteOr80 x :: putUvarint (x / 128) else [x]
termination_by x
decreasing_by exact Nat.div_lt_self (by omega) (by omega)

/-- The decode procedure of the claim (the shape of `binary.ReadUvarint`):
read base-128 digits, least significant first, until a byte below 0x80. -/
def readUvarint : List Byte → Option (Nat × List Byte)
  | [] => none
  | b :: rest =>
      if b < 128 then some (b, rest)
      else
        match readUvarint rest with
        | some (v, r) => some ((b - 128) + 128 * v, r)
        | none => none

/-- Decoding one framed record: read the uvarint length prefix, then exactly
that many subsequent bytes; returns the payload and the remaining bytes. -/
def decodeRecord (bs : List Byte) : Option (List Byte × List Byte) :=
  match readUvarint bs with
  | some (n, rest) =>
      if n ≤ rest.length then some (rest.take n, rest.drop n) else none
  | none => none

/-- The error value `io.ErrShortWrite`. -/
def errShortWrite : String := "short write"

/-- Go `recordStream.Write(b)`: buffer the bytes, report full length. -/
def recordWrite (buf b : List Byte) : List Byte × Nat := (buf ++ b, b.length)

/-- Go `recordStream.EOM(err)` over an underlying writer with state `σ` whose
`Write` returns `(newState, n, err)`.  Mirrors io/record.go: the buffer reset
is deferred (the returned buffer is always empty); on incoming error, return
it; otherwise write the `PutUvarint` length bytes, checking error and short
write, then write the buffered payload, checking error and short write. -/
def recordEOM {σ : Type} (write : σ → List Byte → σ × Nat × Option String)
    (s : σ) (buf : List Byte) (err : Option String) :
    σ × List Byte × Option String :=
  match err with
  | some e => (s, [], some e)
  | none =>
      let pre := putUvarint buf.length
      match write s pre with
      | (s1, n1, e1) =>
        match e1 with
        | some e => (s1, [], some e)
        | none =>
          if n1 ≠ pre.length then (s1, [], some errShortWrite)
          else
            match write s1 buf with
            | (s2, n2, e2) =>
              match e2 with
              | some e => (s2, [], some e)
              | none =>
                if n2 ≠ buf.length then (s2, [], some errShortWrite)
                else (s2, [], none)

/-- A fully-successful underlying writer: appends the bytes and reports the
whole length written (the `bytes.Buffer` delegate of the RecordIO test). -/
def accWrite : List Byte → List Byte → List Byte × Nat × Option String :=
  fun out b => (out ++ b, b.length, none)

/-- Go `BufferedStream.Write` (via the embedded `bytes.Buffer`): append. -/
def bufferedWrite (buf b : List Byte) : List Byte := buf ++ b

/-- Go `BufferedStream.EOM(err)`: `defer bs.Reset()`; if an `EOMFunc` is set it
receives the buffer contents and the incoming error and its result is
returned; the buffer is reset afterwards regardless of the callback outcome.
The callback is modelled by the error value it returns. -/
def bufferedEOM (eomFunc : Option (List Byte → Option String → Option String))
    (buf : List Byte) (err : Option String) : List Byte × Option String :=
  match eomFunc with
  | some f => ([], f buf err)
  | none => ([], none)

/-- Go `ioutil.unknownLevel`: the placeholder code `"?"` (ASCII 63). -/
def unknownLevel : List Byte := [63]

/-- The `ioutil.levelCodes` map: one-character codes for the six levels
(`D`, `I`, `W`, `E`, `F`, `P` in ASCII); any other Level has no entry. -/
def levelCodes (l : Level) : Option (List Byte) :=
  if l = Debug then some [68]
  else if l = Info then some [73]
  else if l = Warn then some [87]
  else if l = Error then some [69]
  else if l = Fatal then some [70]
  else if l = Panic then some [80]
  else none

/-- Go `ioutil.level(c)` from io/ioutil/ioutil.go, the lookup used by the
`Level()` annotation decorator.  The `Except` layer makes a fail-fast path
expressible (a Go panic would be `Except.error`): the source initialises
`result = unknownLevel`, overwrites it only when both the Context holds a
Level and the level table has a code for it, and returns normally in every
case — it contains no panic. -/
def ioutilLevel (c : Ctx) : Except String (List Byte) :=
  match FromContext c with
  | some x =>
      match levelCodes x with
      | some code => Except.ok code
      | none => Except.ok unknownLevel
  | none => Except.ok unknownLevel

/-- Go `caller.Tracking`: the enabled flag and the call depth. -/
structure Tracking where
  enabled : Bool
  depth : Nat
deriving DecidableEq

/-- Go `config.StreamOrLogger`, the Sink of the Config: its function-typed
members (stream, logger, marshaler, error channel, builder) are never
inspected by the option machinery — only stored and restored — so they are
represented by opaque handles (`none` is Go nil). -/
structure StreamOrLogger where
  stream : Option Nat
  logger : Option Nat
  decorators : List Nat
  marshaler : Option Nat
  errors : Option Nat
  builder : Option Nat
deriving DecidableEq

/-- Go `config.Config`: context getter, minimum level, sink, caller tracking,
exit code, exit/panic hooks and per-level transform operators. -/
structure Config where
  context : Option Nat
  level : Level
  sink : StreamOrLogger
  callTracking : Tracking
  exitCode : Int
  exit : Option Nat
  panicFn : Option Nat
  transformOps : List Nat
deriving DecidableEq

/-- Go `encoding.Decorators.Copy` / `levels.TransformOps.Copy`: an element-wise
copy of a slice into fresh backing storage. -/
def slicesCopy {α : Type} : List α → List α
  | [] => []
  | x :: t => x :: slicesCopy t

/-- Go `Config.Copy`: `clone := cfg; clone.Sink.Decorators = cfg.Sink.Decorators.Copy()`. -/
def Config.Copy (cfg : Config) : Config :=
  { cfg with sink := { cfg.sink with decorators := slicesCopy cfg.sink.decorators } }

/-- The functional options of package config, defunctionalised: one
constructor per option generator, plus the undo closure returned by
`Encoding` (which restores the previously copied decorator slice). -/
inductive Opt where
  | noOption : Opt
  | set : Config → Opt
  | level : Level → Opt
  | sink : StreamOrLogger → Opt
  | stream : Option Nat → Opt
  | logger : Option Nat → Opt
  | onExit : Option Nat → Opt
  | exitCode : Int → Opt
  | onPanic : Option Nat → Opt
  | marshaler : Option Nat → Opt
  | encoding : List Nat → Opt
  | encodingUndo : List Nat → List Nat → Opt
  | callTracking : Tracking → Opt
  | errors : Option Nat → Opt

/-- Option application `o(&c)`: performs the mutation and returns the
inverse option, mirroring each closure body of part_006 (package config):
each setter saves the old field value and returns the same generator applied
to it; `Set` copies the whole configuration both ways; `Encoding` appends
and returns the undo closure over the copied old slice. -/
def applyOpt : Opt → Config → Config × Opt
  | .noOption, c => (c, .noOption)
  | .set cfg, c => (cfg.Copy, .set c.Copy)
  | .level v, c => ({ c with level := v }, .level c.level)
  | .sink v, c => ({ c with sink := v }, .sink c.sink)
  | .stream s, c =>
      ({ c with sink := { c.sink with stream := s } }, .stream c.sink.stream)
  | .logger l, c =>
      ({ c with sink := { c.sink with logger := l } }, .logger c.sink.logger)
  | .onExit f, c => ({ c with exit := f }, .onExit c.exit)
  | .exitCode n, c => ({ c with exitCode := n }, .exitCode c.exitCode)
  | .onPanic f, c => ({ c with panicFn := f }, .onPanic c.panicFn)
  | .marshaler m, c =>
      ({ c with sink := { c.sink with marshaler := m } },
        .marshaler c.sink.marshaler)
  | .encoding d, c =>
      ({ c with sink := { c.sink with decorators := c.sink.decorators ++ d } },
        .encodingUndo (slicesCopy c.sink.decorators) d)
  | .encodingUndo old d, c =>
      ({ c with sink := { c.sink with decorators := old } }, .encoding d)
  | .callTracking t, c =>
      ({ c with callTracking := t }, .callTracking c.callTracking)
  | .errors es, c =>
      ({ c with sink := { c.sink with errors := es } }, .errors c.sink.errors)

/-- The option loop of `Config.With`: nil options are skipped, and each
option's returned inverse is discarded (`_ = o(&cfg)`). -/
def applyOpts (cfg : Config) : List (Option Opt) → Config
  | [] => cfg
  | o :: rest =>
      match o with
      | some opt => applyOpts (applyOpt opt cfg).1 rest
      | none => applyOpts cfg rest

/-- Go `Config.With(opt...)` (part_006, the `rollback := Set(cfg)` variant):
`With` receives the Config by value, captures the rollback token before
applying any option, applies the options to its own copy, and returns the
derived configuration (from which the leveled interface is built) together
with the rollback Option. -/
def Config.With (cfg : Config) (opts : List (Option Opt)) : Config × Opt :=
  (applyOpts cfg opts, Opt.set cfg)

/-- Inverse-exactness of one functional option: applying `o` to any
configuration and then applying the option `o` returned restores the
original configuration value. -/
def undoesExactly (o : Opt) : Prop :=
  ∀ c : Config, (applyOpt (applyOpt o c).2 (applyOpt o c).1).1 = c

/-- Atomic actions of one lock-guarded `Logf` call: acquire the guard
mutex, write one byte of the event to the shared Stream, release the mutex. -/
inductive Action where
  | lock : Action
  | unlock : Action
  | write : Byte → Action
deriving DecidableEq

/-- The action sequence performed by one invocation of the Logger produced
by `lockGuard.Apply` (part_006): `g.Lock()`, then the delegate's writes
(`logs.Logf(c, m, a...)`), then the deferred `g.Unlock()` — the critical
section is exactly one Logf call. -/
def lockGuardCall (payload : List Byte) : List Action :=
  Action.lock :: (payload.map Action.write ++ [Action.unlock])

/-- Shared state of two concurrent guarded calls through the same
`lockGuard`: the remaining actions of each call, the current mutex owner,
and the bytes the shared Stream has received so far. -/
structure MState where
  r1 : List Action
  r2 : List Action
  holder : Option Bool
  out : List Byte
deriving DecidableEq

/-- One scheduler step: the chosen thread attempts its next action.
`Lock` succeeds only when the mutex is free, `Unlock` only for the owner
(`sync.Mutex` semantics); a write appends to the shared stream.  Returns
`none` when the chosen thread is finished or blocked. -/
def step (s : MState) (who : Bool) : Option MState :=
  match (if who then s.r1 else s.r2) with
  | [] => none
  | a :: rest =>
      let s' := if who then { s with r1 := rest } else { s with r2 := rest }
      match a with
      | .lock =>
          if s.holder = none then some { s' with holder := some who } else none
      | .unlock =>
          if s.holder = some who then some { s' with holder := none } else none
      | .write b => some { s' with out := s.out ++ [b] }

/-- Run a schedule: a blocked or finished choice leaves the state unchanged
(the scheduler simply cannot advance that thread). -/
def run (s : MState) : List Bool → MState
  | [] => s
  | w :: ws => run ((step s w).getD s) ws

/-- Initial state of two concurrent guarded calls with event payloads
`p1` and `p2`. -/
def initState (p1 p2 : List Byte) : MState :=
  ⟨lockGuardCall p1, lockGuardCall p2, none, []⟩

/-- The reachable shapes of the two-call system: nobody has started; one
call inside its critical section with the other untouched; one call
finished with the other untouched, inside, or finished. -/
def GuardInv (p1 p2 : List Byte) (s : MState) : Prop :=
  (s = initState p1 p2) ∨
  (∃ done rest, p1 = done ++ rest ∧
      s = ⟨rest.map Action.write ++ [Action.unlock], lockGuardCall p2,
            some true, done⟩) ∨
  (s = ⟨[], lockGuardCall p2, none, p1⟩) ∨
  (∃ done rest, p2 = done ++ rest ∧
      s = ⟨[], rest.map Action.write ++ [Action.unlock], some false,
            p1 ++ done⟩) ∨
  (s = ⟨[], [], none, p1 ++ p2⟩) ∨
  (∃ done rest, p2 = done ++ rest ∧
      s = ⟨lockGuardCall p1, rest.map Action.write ++ [Action.unlock],
            some false, done⟩) ∨
  (s = ⟨lockGuardCall p1, [], none, p2⟩) ∨
  (∃ done rest, p1 = done ++ rest ∧
      s = ⟨rest.map Action.write ++ [Action.unlock], [], some true,
            p2 ++ done⟩) ∨
  (s = ⟨[], [], none, p2 ++ p1⟩)

end Gologs

namespace Gologs

/-- Helper: a key that never occurs in a chain looks up to `none`. -/
theorem ctx_value_none_of_hasKey_false :
    ∀ (c : Ctx) (k : Key), c.hasKey k = false → c.Value k = none := by
  intro c
  induction c with
  | background => intro k _; rfl
  | stateful parent key v ih =>
      intro k h
      simp only [Ctx.hasKey, Bool.or_eq_false_iff, decide_eq_false_iff_not] at h
      simp only [Ctx.Value, if_neg h.1]
      exact ih k h.2

/-- C1: with levels ordered Debug < Info < Warn < Error < Fatal < Panic, a
logger built with threshold `min` delivers a message logged at `atLvl` to the
underlying Logger exactly when `atLvl >= min`, and otherwise routes it to the
discarding Null logger; in particular for `l1 < min <= l2` messages at `l1`
are discarded and messages at `l2` are delivered.  `MinTransform` is the
per-level application of this filter. -/
theorem thresholdLogger_filters_below_min (min l1 l2 : Level)
    (h1 : l1 < min) (h2 : min ≤ l2) :
    (∀ (lv : Level) (logs : Logger),
        ThresholdLogger min lv logs = if lv ≥ min then logs else Logger.Null) ∧
    (∀ (lv : Level) (logs : Logger),
        MinTransform min lv logs = (lv, ThresholdLogger min lv logs)) ∧
    (∀ logs : Logger, ThresholdLogger min l1 logs = Logger.Null) ∧
    (∀ (logs : Logger) (c : Ctx) (m : String) (a : List Arg),
        ThresholdLogger min l1 logs c m a = []) ∧
    (∀ (logs : Logger) (c : Ctx) (m : String) (a : List Arg),
        ThresholdLogger min l2 logs c m a = logs c m a) ∧
    Debug < Info ∧ Info < Warn ∧ Warn < Error ∧ Error < Fatal ∧ Fatal < Panic := by
  refine ⟨fun lv logs => rfl, fun lv logs => rfl, ?_, ?_, ?_, ?_, ?_, ?_, ?_, ?_⟩
  · intro logs
    simp only [ThresholdLogger, ge_iff_le, if_neg (not_le.mpr h1)]
  · intro logs c m a
    simp only [ThresholdLogger, ge_iff_le, if_neg (not_le.mpr h1), Logger.Null]
  · intro logs c m a
    simp only [ThresholdLogger, ge_iff_le, if_pos h2]
  all_goals decide

/-- Witness for C1 at `min = Info`, `l1 = Debug`, `l2 = Warn`. -/
theorem thresholdLogger_filters_below_min_witness :
    Debug < Info ∧ Info ≤ Warn ∧
    ThresholdLogger Info Debug Logger.sink Ctx.background "x" [] = [] ∧
    ThresholdLogger Info Warn Logger.sink Ctx.background "x" [] =
      Logger.sink Ctx.background "x" [] := by
  have h := thresholdLogger_filters_below_min Info Debug Warn (by decide) (by decide)
  exact ⟨by decide, by decide, h.2.2.2.1 Logger.sink Ctx.background "x" [],
    h.2.2.2.2.1 Logger.sink Ctx.background "x" []⟩

/-- C3: for distinct keys `k1 ≠ k2`, the chain
`WithValue(WithValue(c, k1, v1), k2, v2)` yields `v1` at `k1` and `v2` at
`k2`; for every other key it delegates to the untouched parent `c`; an
absent key yields nil (`none`), never a fault. -/
theorem withValue_chain_lookup (c : Ctx) (k1 k2 : Key) (v1 v2 : Val)
    (hne : k1 ≠ k2) :
    (WithValue (WithValue c k1 v1) k2 v2).Value k1 = some v1 ∧
    (WithValue (WithValue c k1 v1) k2 v2).Value k2 = some v2 ∧
    (∀ k : Key, k ≠ k1 → k ≠ k2 →
        (WithValue (WithValue c k1 v1) k2 v2).Value k = c.Value k) ∧
    (c.hasKey k1 = false → c.Value k1 = none) ∧
    (c.hasKey k2 = false → c.Value k2 = none) := by
  refine ⟨?_, ?_, ?_, ctx_value_none_of_hasKey_false c k1,
    ctx_value_none_of_hasKey_false c k2⟩
  · simp [WithValue, Ctx.Value, hne]
  · simp [WithValue, Ctx.Value]
  · intro k hk1 hk2
    simp only [WithValue, Ctx.Value, if_neg hk2, if_neg hk1]

/-- Witness for C3 with `c = Background()`, `k1 = user 0`, `k2 = user 1`. -/
theorem withValue_chain_lookup_witness :
    Key.user 0 ≠ Key.user 1 ∧
    (WithValue (WithValue Ctx.background (Key.user 0) (Val.nat 10))
        (Key.user 1) (Val.nat 20)).Value (Key.user 0) = some (Val.nat 10) ∧
    (WithValue (WithValue Ctx.background (Key.user 0) (Val.nat 10))
        (Key.user 1) (Val.nat 20)).Value (Key.user 1) = some (Val.nat 20) := by
  have h := withValue_chain_lookup Ctx.background (Key.user 0) (Key.user 1)
    (Val.nat 10) (Val.nat 20) (by decide)
  exact ⟨by decide, h.1, h.2.1⟩

/-- C6: `exitLogger` and `panicLogger` invoke the wrapped Logger first and
the configured (or default) exit/panic hook afterwards, unconditionally: the
wrapper's trace is the delegate's full trace followed by exactly one hook
invocation, for every delegate — including delegates whose write failed.  The
Transform built by `Config.WithContext` attaches exactly these wrappers to
the Fatal and Panic levels. -/
theorem exit_panic_wrappers_fire_after_delegate :
    (∀ (logs : Logger) (fexit : Option (Int → List Event)) (code : Int)
        (c : Ctx) (m : String) (a : List Arg),
        exitLogger logs fexit code c m a = logs c m a ++ safeExit fexit code) ∧
    (∀ (logs : Logger) (fpanic : Option (String → List Event))
        (c : Ctx) (m : String) (a : List Arg),
        panicLogger logs fpanic c m a = logs c m a ++ safePanic fpanic m) ∧
    (∀ (fexit : Option (Int → List Event)) (code : Int)
        (fpanic : Option (String → List Event)) (logs : Logger)
        (c : Ctx) (m : String) (a : List Arg),
        ((withContextTransform fexit code fpanic).Apply Fatal logs).2 c m a =
          logs c m a ++ safeExit fexit code) ∧
    (∀ (fexit : Option (Int → List Event)) (code : Int)
        (fpanic : Option (String → List Event)) (logs : Logger)
        (c : Ctx) (m : String) (a : List Arg),
        ((withContextTransform fexit code fpanic).Apply Panic logs).2 c m a =
          logs c m a ++ safePanic fpanic m) := by
  refine ⟨fun _ _ _ _ _ _ => rfl, fun _ _ _ _ _ => rfl, ?_, ?_⟩
  · intro fexit code fpanic logs c m a
    simp [withContextTransform, Transform.Apply, exitLogger, Fatal]
  · intro fexit code fpanic logs c m a
    simp [withContextTransform, Transform.Apply, panicLogger, Fatal, Panic]

/-- C8: context decorators compose left-to-right (each decorator's output
context feeds the next one's input; the last decorator in the list acts
last on the context), while StreamOp decorators fold so that the last
decorator in the list wraps outermost — hence, when the composed StreamOp is
invoked, the last registered decorator executes first, as the concrete
prefix-writing decorators show: their tags reach the stream in reverse
registration order. -/
theorem decorate_order_asymmetry :
    (∀ (f g : Ctx → Ctx) (ctx : Ctx),
        ctxDecorate [some f, some g] ctx = g (f ctx)) ∧
    (∀ (dd : List (Option (Ctx → Ctx))) (d : Ctx → Ctx) (ctx : Ctx),
        ctxDecorate (dd ++ [some d]) ctx = d (ctxDecorate dd ctx)) ∧
    (∀ (σ : Type) (f g : StreamOp σ → StreamOp σ) (op : StreamOp σ),
        streamDecorate [some f, some g] op = g (f op)) ∧
    (∀ (σ : Type) (dd : List (Option (StreamOp σ → StreamOp σ)))
        (d : StreamOp σ → StreamOp σ) (op : StreamOp σ),
        streamDecorate (dd ++ [some d]) op = d (streamDecorate dd op)) ∧
    (∀ (t1 t2 : Nat) (base : StreamOp (List Nat)) (c : Ctx) (s : List Nat)
        (m : String) (a : List Arg),
        streamDecorate [some (tagWrite t1), some (tagWrite t2)] base c s m a =
          base c (s ++ [t2, t1]) m a) := by
  refine ⟨fun _ _ _ => rfl, ?_, fun _ _ _ _ => rfl, ?_, ?_⟩
  · intro dd d ctx
    induction dd generalizing ctx with
    | nil => rfl
    | cons hd tl ih => cases hd <;> simp [ctxDecorate, ih]
  · intro σ dd d op
    induction dd generalizing op with
    | nil => rfl
    | cons hd tl ih => cases hd <;> simp [streamDecorate, ih]
  · intro t1 t2 base c s m a
    simp [streamDecorate, tagWrite]

/-- C10: the leveled interface built by `WithLoggers` (and the older
`WithLevelLoggers`) is total at every level: a level for which the Indexer
has no Logger — or for which a nil Logger was passed — is bound to the
discarding `logger.Null()`, so the corresponding leveled method produces no
events instead of dereferencing a missing logger. -/
theorem withLoggers_missing_level_is_null :
    (∀ (ctx : Ctx) (index : Level → Option Logger) (m : String) (a : List Arg),
        index Debug = none →
          (WithLoggers ctx index).debugf = Logger.Null ∧
          (WithLoggers ctx index).Debugf m a = []) ∧
    (∀ (ctx : Ctx) (index : Level → Option Logger) (m : String) (a : List Arg),
        index Info = none →
          (WithLoggers ctx index).infof = Logger.Null ∧
          (WithLoggers ctx index).Infof m a = []) ∧
    (∀ (ctx : Ctx) (index : Level → Option Logger) (m : String) (a : List Arg),
        index Warn = none →
          (WithLoggers ctx index).warnf = Logger.Null ∧
          (WithLoggers ctx index).Warnf m a = []) ∧
    (∀ (ctx : Ctx) (index : Level → Option Logger) (m : String) (a : List Arg),
        index Error = none →
          (WithLoggers ctx index).errorf = Logger.Null ∧
          (WithLoggers ctx index).Errorf m a = []) ∧
    (∀ (ctx : Ctx) (index : Level → Option Logger) (m : String) (a : List Arg),
        index Fatal = none →
          (WithLoggers ctx index).fatalf = Logger.Null ∧
          (WithLoggers ctx index).Fatalf m a = []) ∧
    (∀ (ctx : Ctx) (index : Level → Option Logger) (m : String) (a : List Arg),
        index Panic = none →
          (WithLoggers ctx index).panicf = Logger.Null ∧
          (WithLoggers ctx index).Panicf m a = []) ∧
    checkLogger none = LoggerNC.Null ∧
    (∀ (i w e f p : Option LoggerNC) (m : String) (a : List Arg),
        (WithLevelLoggers none i w e f p).Debugf m a = []) ∧
    (∀ (d i w e f : Option LoggerNC) (m : String) (a : List Arg),
        (WithLevelLoggers d i w e f none).Panicf m a = []) := by
  refine ⟨?_, ?_, ?_, ?_, ?_, ?_, rfl, fun _ _ _ _ _ _ _ => rfl,
    fun _ _ _ _ _ _ _ => rfl⟩ <;>
    · intro ctx index m a h
      constructor
      · simp [WithLoggers, h]
      · simp [WithLoggers, Loggers.Debugf, Loggers.Infof, Loggers.Warnf,
          Loggers.Errorf, Loggers.Fatalf, Loggers.Panicf, h, Logger.Null]

/-- Witness for C10: an Indexer with no Logger at all discards Debugf. -/
theorem withLoggers_missing_level_is_null_witness :
    (fun (_ : Level) => (none : Option Logger)) Debug = none ∧
    (WithLoggers Ctx.background (fun _ => none)).Debugf "m" [] = [] := by
  exact ⟨rfl, (withLoggers_missing_level_is_null.1 Ctx.background
    (fun _ => none) "m" [] rfl).2⟩

set_option maxRecDepth 4096 in
/-- Helper: `byte(x) | 0x80` equals the low seven bits plus the
continuation bit. -/
theorem byteOr80_eq (x : Nat) : byteOr80 x = x % 128 + 128 := by
  have h : ∀ n : Fin 256, (n.val ||| 128) = n.val % 128 + 128 := by decide
  have hx : x % 256 < 256 := Nat.mod_lt _ (by omega)
  have h2 := h ⟨x % 256, hx⟩
  simp only [byteOr80, h2]
  rw [Nat.mod_mod_of_dvd x (by norm_num : (128:Nat) ∣ 256)]

/-- Helper: reading a uvarint back from its `PutUvarint` encoding recovers
the value and leaves the following bytes untouched. -/
theorem readUvarint_putUvarint (n : Nat) : ∀ rest : List Byte,
    readUvarint (putUvarint n ++ rest) = some (n, rest) := by
  induction n using Nat.strong_induction_on with
  | _ n ih =>
    intro rest
    rw [putUvarint]
    by_cases h : 128 ≤ n
    · rw [dif_pos h, List.cons_append, byteOr80_eq n, readUvarint]
      rw [if_neg (show ¬ (n % 128 + 128 < 128) by omega)]
      rw [ih (n / 128) (Nat.div_lt_self (by omega) (by omega)) rest]
      have hn : n % 128 + 128 - 128 + 128 * (n / 128) = n := by omega
      simp only [hn]
    · rw [dif_neg h, List.singleton_append, readUvarint]
      rw [if_pos (show n < 128 by omega)]

/-- C4: a successful `recordStream.EOM` writes to the underlying writer the
`binary.PutUvarint` encoding of the payload length immediately followed by
exactly the payload bytes, and decoding by reading the uvarint length prefix
and then exactly that many subsequent bytes reproduces the original message
bytes exactly (whatever bytes follow the record). -/
theorem recordIO_roundtrip :
    (∀ out buf : List Byte,
        recordEOM accWrite out buf none =
          (out ++ (putUvarint buf.length ++ buf), [], none)) ∧
    (∀ payload rest : List Byte,
        decodeRecord (putUvarint payload.length ++ payload ++ rest) =
          some (payload, rest)) ∧
    (∀ buf b : List Byte, recordWrite buf b = (buf ++ b, b.length)) := by
  refine ⟨?_, ?_, fun _ _ => rfl⟩
  · intro out buf
    simp [recordEOM, accWrite]
  · intro payload rest
    have h := readUvarint_putUvarint payload.length (payload ++ rest)
    rw [← List.append_assoc] at h
    simp only [decodeRecord, h]
    rw [if_pos (by simp)]
    simp

/-- C7: after any call to EOM — whatever the incoming error, the EOM
callback's outcome, or the underlying writer's responses — the internal
buffer of a `BufferedStream` and of a RecordIO stream is empty, so a
subsequent event's bytes never include bytes of a previous event. -/
theorem eom_always_resets_buffer :
    (∀ (eomFunc : Option (List Byte → Option String → Option String))
        (buf : List Byte) (err : Option String),
        (bufferedEOM eomFunc buf err).1 = []) ∧
    (∀ (σ : Type) (write : σ → List Byte → σ × Nat × Option String) (s : σ)
        (buf : List Byte) (err : Option String),
        (recordEOM write s buf err).2.1 = []) ∧
    (∀ (eomFunc : Option (List Byte → Option String → Option String))
        (buf b : List Byte) (err : Option String),
        bufferedWrite (bufferedEOM eomFunc buf err).1 b = b) := by
  refine ⟨?_, ?_, ?_⟩
  · intro eomFunc buf err
    cases eomFunc <;> rfl
  · intro σ write s buf err
    cases err with
    | some e => rfl
    | none =>
        simp only [recordEOM]
        rcases hw : write s (putUvarint buf.length) with ⟨s1, n1, e1⟩
        simp only [hw]
        cases e1 with
        | some e => rfl
        | none =>
            simp only
            split
            · rfl
            · rcases hw2 : write s1 buf with ⟨s2, n2, e2⟩
              simp only [hw2]
              cases e2 with
              | some e => rfl
              | none =>
                  simp only
                  split <;> rfl
  · intro eomFunc buf b err
    cases eomFunc <;> rfl

/-- C5 counterexample: a Level with no registered one-character code (here
99) found in the event's Context is tolerated by the annotation lookup —
`ioutil.level` returns normally with the `"?"` placeholder instead of
failing fast. -/
theorem level_code_miss_not_fatal :
    FromContext (NewContext Ctx.background 99) = some 99 ∧
    levelCodes 99 = none ∧
    ioutilLevel (NewContext Ctx.background 99) = Except.ok unknownLevel := by
  refine ⟨rfl, by decide, rfl⟩

/-- C5 amended: a level-code lookup miss during annotation is not a fatal
condition: whenever the Context's Level has no registered code, the lookup
returns normally with the placeholder code `"?"`. -/
theorem level_code_miss_yields_placeholder (c : Ctx) (lvl : Level)
    (h1 : FromContext c = some lvl) (h2 : levelCodes lvl = none) :
    ioutilLevel c = Except.ok unknownLevel := by
  simp [ioutilLevel, h1, h2]

/-- Witness for the amended C5 at Level 99. -/
theorem level_code_miss_yields_placeholder_witness :
    FromContext (NewContext Ctx.background 99) = some 99 ∧
    levelCodes 99 = none ∧
    ioutilLevel (NewContext Ctx.background 99) = Except.ok unknownLevel :=
  ⟨rfl, by decide,
    level_code_miss_yields_placeholder (NewContext Ctx.background 99) 99 rfl
      (by decide)⟩

/-- Helper: a slice copy has the same value as the original slice. -/
theorem slicesCopy_eq {α : Type} : ∀ l : List α, slicesCopy l = l
  | [] => rfl
  | x :: t => by rw [slicesCopy, slicesCopy_eq t]

/-- Helper: `Config.Copy` preserves the configuration value. -/
theorem config_copy_eq (cfg : Config) : cfg.Copy = cfg := by
  simp [Config.Copy, slicesCopy_eq]

/-- C2: `With` operates on the Config value it receives (never the caller's
variable); the Option it returns is captured before any option is applied
and is an exact inverse — applying it to any configuration, in particular
the derived one, restores the configuration that was current before `With`
was invoked, with no stashing by the caller; and every individual
functional option, when applied, returns an option whose application undoes
exactly that mutation. -/
theorem config_with_exact_rollback :
    (∀ (cfg : Config) (opts : List (Option Opt)),
        Config.With cfg opts = (applyOpts cfg opts, Opt.set cfg)) ∧
    (∀ (cfg : Config) (opts : List (Option Opt)) (c : Config),
        (applyOpt (Config.With cfg opts).2 c).1 = cfg) ∧
    (∀ v, undoesExactly (.level v)) ∧
    (∀ v, undoesExactly (.sink v)) ∧
    (∀ s, undoesExactly (.stream s)) ∧
    (∀ l, undoesExactly (.logger l)) ∧
    (∀ f, undoesExactly (.onExit f)) ∧
    (∀ n, undoesExactly (.exitCode n)) ∧
    (∀ f, undoesExactly (.onPanic f)) ∧
    (∀ m, undoesExactly (.marshaler m)) ∧
    (∀ d, undoesExactly (.encoding d)) ∧
    (∀ t, undoesExactly (.callTracking t)) ∧
    (∀ es, undoesExactly (.errors es)) ∧
    (∀ cfg, undoesExactly (.set cfg)) ∧
    undoesExactly .noOption := by
  refine ⟨fun _ _ => rfl, ?_, ?_, ?_, ?_, ?_, ?_, ?_, ?_, ?_, ?_, ?_, ?_, ?_,
    fun _ => rfl⟩
  · intro cfg opts c
    simp [Config.With, applyOpt, config_copy_eq]
  all_goals
    intro v c
    simp [undoesExactly, applyOpt, slicesCopy_eq, config_copy_eq]

/-- Helper: every scheduler step preserves the reachable-shape invariant of
two concurrent lock-guarded calls. -/
theorem guardInv_step (p1 p2 : List Byte) (s : MState) (who : Bool)
    (h : GuardInv p1 p2 s) : GuardInv p1 p2 ((step s who).getD s) := by
  unfold GuardInv at h ⊢
  rcases h with h | ⟨d, r, hp, h⟩ | h | ⟨d, r, hp, h⟩ | h | ⟨d, r, hp, h⟩ | h
    | ⟨d, r, hp, h⟩ | h
  · subst h
    cases who
    · refine Or.inr (Or.inr (Or.inr (Or.inr (Or.inr (Or.inl
        ⟨[], p2, by simp, ?_⟩)))))
      simp [initState, step, lockGuardCall]
    · refine Or.inr (Or.inl ⟨[], p1, by simp, ?_⟩)
      simp [initState, step, lockGuardCall]
  · subst h
    cases who
    · have hs : step (⟨r.map Action.write ++ [Action.unlock],
          lockGuardCall p2, some true, d⟩ : MState) false = none := by
        simp [step, lockGuardCall]
      simp only [hs, Option.getD_none]
      exact Or.inr (Or.inl ⟨d, r, hp, rfl⟩)
    · cases r with
      | nil =>
          refine Or.inr (Or.inr (Or.inl ?_))
          simp only [List.append_nil] at hp
          simp [step, hp]
      | cons b t =>
          refine Or.inr (Or.inl ⟨d ++ [b], t, by simp [hp], ?_⟩)
          simp [step]
  · subst h
    cases who
    · refine Or.inr (Or.inr (Or.inr (Or.inl ⟨[], p2, by simp, ?_⟩)))
      simp [step, lockGuardCall]
    · have hs : step (⟨[], lockGuardCall p2, none, p1⟩ : MState) true = none := by
        simp [step]
      simp only [hs, Option.getD_none]
      exact Or.inr (Or.inr (Or.inl trivial))
  · subst h
    cases who
    · cases r with
      | nil =>
          refine Or.inr (Or.inr (Or.inr (Or.inr (Or.inl ?_))))
          simp only [List.append_nil] at hp
          simp [step, hp]
      | cons b t =>
          refine Or.inr (Or.inr (Or.inr (Or.inl ⟨d ++ [b], t, by simp [hp], ?_⟩)))
          simp [step]
    · have hs : step (⟨[], r.map Action.write ++ [Action.unlock],
          some false, p1 ++ d⟩ : MState) true = none := by
        simp [step]
      simp only [hs, Option.getD_none]
      exact Or.inr (Or.inr (Or.inr (Or.inl ⟨d, r, hp, rfl⟩)))
  · subst h
    have hs : ∀ w, step (⟨[], [], none, p1 ++ p2⟩ : MState) w = none := by
      intro w; cases w <;> simp [step]
    simp only [hs, Option.getD_none]
    exact Or.inr (Or.inr (Or.inr (Or.inr (Or.inl trivial))))
  · subst h
    cases who
    · cases r with
      | nil =>
          refine Or.inr (Or.inr (Or.inr (Or.inr (Or.inr (Or.inr (Or.inl ?_))))))
          simp only [List.append_nil] at hp
          simp [step, hp]
      | cons b t =>
          refine Or.inr (Or.inr (Or.inr (Or.inr (Or.inr (Or.inl
            ⟨d ++ [b], t, by simp [hp], ?_⟩)))))
          simp [step]
    · have hs : step (⟨lockGuardCall p1, r.map Action.write ++ [Action.unlock],
          some false, d⟩ : MState) true = none := by
        simp [step, lockGuardCall]
      simp only [hs, Option.getD_none]
      exact Or.inr (Or.inr (Or.inr (Or.inr (Or.inr (Or.inl ⟨d, r, hp, rfl⟩)))))
  · subst h
    cases who
    · have hs : step (⟨lockGuardCall p1, [], none, p2⟩ : MState) false = none := by
        simp [step]
      simp only [hs, Option.getD_none]
      exact Or.inr (Or.inr (Or.inr (Or.inr (Or.inr (Or.inr (Or.inl trivial))))))
    · refine Or.inr (Or.inr (Or.inr (Or.inr (Or.inr (Or.inr (Or.inr (Or.inl
        ⟨[], p1, by simp, ?_⟩)))))))
      simp [step, lockGuardCall]
  · subst h
    cases who
    · have hs : step (⟨r.map Action.write ++ [Action.unlock], [],
          some true, p2 ++ d⟩ : MState) false = none := by
        simp [step]
      simp only [hs, Option.getD_none]
      exact Or.inr (Or.inr (Or.inr (Or.inr (Or.inr (Or.inr (Or.inr (Or.inl
        ⟨d, r, hp, rfl⟩)))))))
    · cases r with
      | nil =>
          refine Or.inr (Or.inr (Or.inr (Or.inr (Or.inr (Or.inr (Or.inr
            (Or.inr ?_)))))))
          simp only [List.append_nil] at hp
          simp [step, hp]
      | cons b t =>
          refine Or.inr (Or.inr (Or.inr (Or.inr (Or.inr (Or.inr (Or.inr (Or.inl
            ⟨d ++ [b], t, by simp [hp], ?_⟩)))))))
          simp [step]
  · subst h
    have hs : ∀ w, step (⟨[], [], none, p2 ++ p1⟩ : MState) w = none := by
      intro w; cases w <;> simp [step]
    simp only [hs, Option.getD_none]
    exact Or.inr (Or.inr (Or.inr (Or.inr (Or.inr (Or.inr (Or.inr
      (Or.inr trivial)))))))

/-- Helper: the invariant holds after running any schedule. -/
theorem guardInv_run (p1 p2 : List Byte) (ch : List Bool) (s : MState)
    (h : GuardInv p1 p2 s) : GuardInv p1 p2 (run s ch) := by
  induction ch generalizing s with
  | nil => exact h
  | cons w ws ih => exact ih _ (guardInv_step p1 p2 s w h)

/-- C9: two log events submitted concurrently through the same lock-guarded
Logger to a shared Stream are fully serialized — under every mutex-respecting
schedule in which both calls complete, the stream holds one event's bytes
followed by the other's, never an interleaving; and each guarded call
acquires the mutex at the start of its single Logf invocation, performs the
delegate's writes, and releases before returning (one acquire and one
release per call — no lock is held across separate log events). -/
theorem lock_guard_serializes (p1 p2 : List Byte) (ch : List Bool)
    (h1 : (run (initState p1 p2) ch).r1 = [])
    (h2 : (run (initState p1 p2) ch).r2 = []) :
    ((run (initState p1 p2) ch).out = p1 ++ p2 ∨
      (run (initState p1 p2) ch).out = p2 ++ p1) ∧
    (∀ p : List Byte, lockGuardCall p =
        Action.lock :: (p.map Action.write ++ [Action.unlock])) ∧
    (∀ p : List Byte, (lockGuardCall p).head? = some Action.lock) ∧
    (∀ p : List Byte, (lockGuardCall p).getLast? = some Action.unlock) ∧
    (∀ p : List Byte, (lockGuardCall p).count Action.lock = 1) ∧
    (∀ p : List Byte, (lockGuardCall p).count Action.unlock = 1) := by
  have hinv := guardInv_run p1 p2 ch (initState p1 p2) (Or.inl rfl)
  unfold GuardInv at hinv
  refine ⟨?_, fun _ => rfl, fun _ => rfl, ?_, ?_, ?_⟩
  · rcases hinv with h | ⟨d, r, hp, h⟩ | h | ⟨d, r, hp, h⟩ | h | ⟨d, r, hp, h⟩
      | h | ⟨d, r, hp, h⟩ | h
    · rw [h] at h1; simp [initState, lockGuardCall] at h1
    · rw [h] at h1; simp at h1
    · rw [h] at h2; simp [lockGuardCall] at h2
    · rw [h] at h2; simp at h2
    · rw [h]; exact Or.inl rfl
    · rw [h] at h2; simp at h2
    · rw [h] at h1; simp [lockGuardCall] at h1
    · rw [h] at h1; simp at h1
    · rw [h]; exact Or.inr rfl
  · intro p
    rw [lockGuardCall, ← List.cons_append, List.getLast?_concat]
  · intro p
    have hz : (p.map Action.write).count Action.lock = 0 :=
      List.count_eq_zero.mpr (by simp)
    simp [lockGuardCall, List.count_cons, List.count_append, hz]
  · intro p
    have hz : (p.map Action.write).count Action.unlock = 0 :=
      List.count_eq_zero.mpr (by simp)
    simp [lockGuardCall, List.count_cons, List.count_append, hz]

/-- Witness for C9: payloads `[1]` and `[2]` under the schedule that runs
call 1 to completion and then call 2. -/
theorem lock_guard_serializes_witness :
    (run (initState [1] [2]) [true, true, true, false, false, false]).r1 = [] ∧
    (run (initState [1] [2]) [true, true, true, false, false, false]).r2 = [] ∧
    ((run (initState [1] [2]) [true, true, true, false, false, false]).out =
        [1] ++ [2] ∨
      (run (initState [1] [2]) [true, true, true, false, false, false]).out =
        [2] ++ [1]) :=
  ⟨by decide, by decide,
    (lock_guard_serializes [1] [2] [true, true, true, false, false, false]
      (by decide) (by decide)).1⟩

end Gologs
